import Mathlib

/- Formal model of src/architect.py from the PyTorch ProxylessNAS repository.
   Tensors are modelled as lists of real numbers, a parameter collection as a
   list of tensors, and a gradient that may be undefined (Python None) as an
   Option.  In-place mutation of the network weights is modelled by explicit
   state passing; a Python exception is modelled by Except Unit.  External
   collaborators (autograd, the loss) enter as function parameters. -/

namespace Architect

noncomputable section

/- Elementwise in-place update p += c * d for one tensor, the body of the
   perturbation loops in compute_hessian (architect.py lines 93-94, 100-101,
   107-108, 234-236, 242-244, 250-252). -/
def addScaled (c : ℝ) : List ℝ → List ℝ → List ℝ
  | ps, [] => ps
  | [], _ => []
  | p :: ps, d :: ds => (p + c * d) :: addScaled c ps ds

/- One perturbation pass of DARTSArchitect.compute_hessian: for p, d in
   zip(self.net.weights(), dw): p += c * d.  Weights beyond the zipped prefix
   are untouched. -/
def perturbD (c : ℝ) : List (List ℝ) → List (List ℝ) → List (List ℝ)
  | ps, [] => ps
  | [], _ => []
  | p :: ps, d :: ds => addScaled c p d :: perturbD c ps ds

/- One perturbation pass of BinaryGateArchitect.compute_hessian: pairs whose
   direction entry is None are skipped (architect.py lines 234-236). -/
def perturbBG (c : ℝ) : List (List ℝ) → List (Option (List ℝ)) → List (List ℝ)
  | ps, [] => ps
  | [], _ => []
  | p :: ps, some d :: ds => addScaled c p d :: perturbBG c ps ds
  | p :: ps, none :: ds => p :: perturbBG c ps ds

/- Sum of squared entries of one tensor. -/
def sumSq (t : List ℝ) : ℝ := (t.map (fun x => x ^ 2)).sum

/- torch.cat([w.view(-1) for w in dw]).norm() of DARTSArchitect (line 88):
   the Euclidean norm of the concatenation of all direction entries. -/
def dartsNorm (dw : List (List ℝ)) : ℝ :=
  Real.sqrt ((dw.map sumSq).sum)

/- torch.cat([w.view(-1) for w in dw if not w is None]).norm() of
   BinaryGateArchitect (line 228): undefined entries are excluded. -/
def bgNorm (dw : List (Option (List ℝ))) : ℝ :=
  Real.sqrt (((dw.filterMap id).map sumSq).sum)

/- Elementwise virtual SGD update for one tensor: vw_i = w_i - xi * (m_i +
   g_i + wd * w_i), the body of vw.copy_(w - xi*(m + g + wd*w)) at
   architect.py lines 44-46 and 156-158.  The momentum list m is already
   scaled by the momentum coefficient. -/
def sgdVirtual (xi wd : ℝ) : List ℝ → List ℝ → List ℝ → List ℝ
  | w :: ws, g :: gs, m :: ms => (w - xi * (m + g + wd * w)) :: sgdVirtual xi wd ws gs ms
  | _, _, _ => []

/- m = w_optim.state[w].get(momentum key, 0.) * self.w_momentum (lines 45 and
   157): the momentum buffer scaled by mu, a zero tensor when absent. -/
def momTerm (mu : ℝ) (mom : Option (List ℝ)) (w : List ℝ) : List ℝ :=
  match mom with
  | none => List.replicate w.length 0
  | some mb => mb.map (fun x => x * mu)

/- New value of one virtual weight tensor. -/
def vwTensor (xi mu wd : ℝ) (mom : Option (List ℝ)) (w g : List ℝ) : List ℝ :=
  sgdVirtual xi wd w g (momTerm mu mom w)

/- The virtual-step loop: for w, vw, g in zip(net.weights(), v_net.weights(),
   gradients): vw.copy_(...).  Momentum buffers are aligned positionally with
   the weights (the optimizer state is keyed by parameter identity).  Virtual
   weight tensors beyond the zipped prefix keep their old value. -/
def virtualWeights (xi mu wd : ℝ) :
    List (List ℝ) → List (List ℝ) → List (Option (List ℝ)) → List (List ℝ) →
    List (List ℝ)
  | w :: ws, g :: gs, moms, _vw :: vws =>
      vwTensor xi mu wd (moms.headD none) w g ::
        virtualWeights xi mu wd ws gs moms.tail vws
  | _, _, _, vws => vws

/- The alpha synchronisation loop of DARTSArchitect.virtual_step (lines
   49-50): for a, va in zip(net.alphas(), v_net.alphas()): va.copy_(a).
   Virtual alpha tensors beyond the zipped prefix keep their old value. -/
def copySync : List (List ℝ) → List (List ℝ) → List (List ℝ)
  | a :: as, _va :: vas => a :: copySync as vas
  | _, vas => vas

/- Mutable state touched by DARTSArchitect: real weights and alphas, virtual
   weights and alphas, and the momentum buffers of the weight optimizer. -/
structure DartsState where
  netW : List (List ℝ)
  netA : List (List ℝ)
  vW : List (List ℝ)
  vA : List (List ℝ)
  moms : List (Option (List ℝ))

/- DARTSArchitect.virtual_step (lines 19-50).  The gradients g of the
   training loss with respect to the real weights are an input, computed by
   the external autograd collaborator.  The only writes in the source are
   vw.copy_ and va.copy_, so only the virtual fields change. -/
def dartsVirtualStep (xi mu wd : ℝ) (g : List (List ℝ)) (s : DartsState) :
    DartsState :=
  { s with
    vW := virtualWeights xi mu wd s.netW g s.moms s.vW
    vA := copySync s.netA s.vA }

/- Mutable state touched by BinaryGateArchitect.  Modelled from the spec:
   models/nas_modules.py (not under src/) owns the architecture parameters in
   a module-level registry, and per spec section 4.1 and section 9 the gated
   variant shares the alpha tensors between the real and the virtual model,
   so a single alphas field serves both. -/
structure BGState where
  netW : List (List ℝ)
  alphas : List (List ℝ)
  vW : List (List ℝ)
  moms : List (Option (List ℝ))

/- BinaryGateArchitect.virtual_step (lines 131-158): same weight update, no
   alpha synchronisation. -/
def bgVirtualStep (xi mu wd : ℝ) (g : List (List ℝ)) (s : BGState) : BGState :=
  { s with vW := virtualWeights xi mu wd s.netW g s.moms s.vW }

/- Alphas of the real model as seen by BinaryGateArchitect. -/
def bgNetAlphas (s : BGState) : List (List ℝ) := s.alphas

/- Alphas of the virtual model as seen by BinaryGateArchitect.  Modelled from
   the spec: the gated variant shares the alpha tensors, no virtual copy. -/
def bgVNetAlphas (s : BGState) : List (List ℝ) := s.alphas

/- Whether an Except value is a normal return. -/
def exceptOk {ε α : Type} : Except ε α → Bool
  | .ok _ => true
  | .error _ => false

/- hessian = [(p-n) / 2.*eps for p, n in zip(dalpha_pos, dalpha_neg)]
   (architect.py line 110).  Python operator precedence evaluates this as
   ((p - n) / 2) * eps, and the Lean expression below parses the same way. -/
def dartsHessCombine (eps : ℝ) : List (List ℝ) → List (List ℝ) → List (List ℝ)
  | [], _ => []
  | _, [] => []
  | p :: ps, n :: ns =>
      (p.zipWith (fun pi ni => (pi - ni) / 2 * eps) n) :: dartsHessCombine eps ps ns

/- The perturb / differentiate / restore body of DARTSArchitect.compute_hessian
   (lines 91-111), parametrized by the already computed eps.  The argument
   gradA models the composite self.net.loss(trn_X, trn_y) followed by
   torch.autograd.grad(loss, self.net.alphas()) as a function of the current
   real weights; it may raise.  The returned pair is (final real weights,
   normal result or propagated error). -/
def dartsHessianCore (gradA : List (List ℝ) → Except Unit (List (List ℝ)))
    (eps : ℝ) (W : List (List ℝ)) (dw : List (List ℝ)) :
    List (List ℝ) × Except Unit (List (List ℝ)) :=
  match gradA (perturbD eps W dw) with
  | .error e => (perturbD eps W dw, .error e)
  | .ok dpos =>
    match gradA (perturbD (-(2 * eps)) (perturbD eps W dw) dw) with
    | .error e => (perturbD (-(2 * eps)) (perturbD eps W dw) dw, .error e)
    | .ok dneg =>
        (perturbD eps (perturbD (-(2 * eps)) (perturbD eps W dw) dw) dw,
         .ok (dartsHessCombine eps dpos dneg))

/- DARTSArchitect.compute_hessian (lines 80-111): eps = 0.01 / norm(dw), then
   the core.  torch.cat of an empty list (dw empty, line 88) raises before
   any weight is touched. -/
def dartsComputeHessian (gradA : List (List ℝ) → Except Unit (List (List ℝ)))
    (W : List (List ℝ)) (dw : List (List ℝ)) :
    List (List ℝ) × Except Unit (List (List ℝ)) :=
  if dw.isEmpty then (W, .error ()) else
  dartsHessianCore gradA ((0.01 : ℝ) / dartsNorm dw) W dw

/- One entry of the binary-gate hessian list (line 254):
   (p-n) / 2.*eps if not p is None else 0.  When p is defined the Python int
   literal 0 never occurs; when p is defined but n is None the subtraction
   p - n raises a TypeError. -/
inductive HessT where
  | zero : HessT
  | tens : List ℝ → HessT

/- Combine one (dalpha_pos, dalpha_neg) pair, mirroring the guard on p only. -/
def bgHessEntry (eps : ℝ) : Option (List ℝ) → Option (List ℝ) → Except Unit HessT
  | none, _ => .ok .zero
  | some p, some n => .ok (.tens (p.zipWith (fun pi ni => (pi - ni) / 2 * eps) n))
  | some _, none => .error ()

/- The list comprehension of line 254 over zip(dalpha_pos, dalpha_neg); the
   first raising entry propagates. -/
def bgHessList (eps : ℝ) :
    List (Option (List ℝ)) → List (Option (List ℝ)) → Except Unit (List HessT)
  | [], _ => .ok []
  | _, [] => .ok []
  | p :: ps, n :: ns =>
      match bgHessEntry eps p n with
      | .error e => .error e
      | .ok h =>
        match bgHessList eps ps ns with
        | .error e => .error e
        | .ok rest => .ok (h :: rest)

/- The perturb / differentiate / restore body of
   BinaryGateArchitect.compute_hessian (lines 232-255), parametrized by the
   already computed eps.  gradA models the training loss followed by
   torch.autograd.grad(loss, self.net.alphas(), allow_unused=True) as a
   function of the current real weights, so its entries may be undefined. -/
def bgHessianCore
    (gradA : List (List ℝ) → Except Unit (List (Option (List ℝ))))
    (eps : ℝ) (W : List (List ℝ)) (dw : List (Option (List ℝ))) :
    List (List ℝ) × Except Unit (List HessT) :=
  match gradA (perturbBG eps W dw) with
  | .error e => (perturbBG eps W dw, .error e)
  | .ok dpos =>
    match gradA (perturbBG (-(2 * eps)) (perturbBG eps W dw) dw) with
    | .error e => (perturbBG (-(2 * eps)) (perturbBG eps W dw) dw, .error e)
    | .ok dneg =>
        (perturbBG eps (perturbBG (-(2 * eps)) (perturbBG eps W dw) dw) dw,
         bgHessList eps dpos dneg)

/- BinaryGateArchitect.compute_hessian (lines 220-255): torch.cat raises when
   every direction entry is None (line 228), before any weight is touched;
   otherwise eps = 0.01 / norm of the defined entries, then the core. -/
def bgComputeHessian
    (gradA : List (List ℝ) → Except Unit (List (Option (List ℝ))))
    (W : List (List ℝ)) (dw : List (Option (List ℝ))) :
    List (List ℝ) × Except Unit (List HessT) :=
  if (dw.filterMap id).isEmpty then (W, .error ()) else
  bgHessianCore gradA ((0.01 : ℝ) / bgNorm dw) W dw

/- alpha.grad = da - xi * h for one alpha group (lines 191-192).  When da is
   None the Python subtraction None - (xi * h) raises a TypeError; when the
   hessian entry is the int 0 the result is da - 0.0 = da elementwise. -/
def combineEntryBG (xi : ℝ) : Option (List ℝ) → HessT → Except Unit (List ℝ)
  | none, _ => .error ()
  | some da, .zero => .ok da
  | some da, .tens h => .ok (da.zipWith (fun d hh => d - xi * hh) h)

/- The gradient-update loop of BinaryGateArchitect.step (lines 190-192) over
   zip(dalpha, hessian): the list of gradient values written onto the alpha
   parameters. -/
def bgGradUpdate (xi : ℝ) :
    List (Option (List ℝ)) → List HessT → Except Unit (List (List ℝ))
  | [], _ => .ok []
  | _, [] => .ok []
  | da :: das, h :: hs =>
      match combineEntryBG xi da h with
      | .error e => .error e
      | .ok g =>
        match bgGradUpdate xi das hs with
        | .error e => .error e
        | .ok rest => .ok (g :: rest)

/- The unrolled branch of BinaryGateArchitect.step after the validation
   backward pass (lines 187-192): run compute_hessian on the direction dw,
   then write the corrected gradients.  Returns the final real weights and
   the written gradients, or the propagated error. -/
def bgStepUnrolledGrads (xi : ℝ)
    (gradA : List (List ℝ) → Except Unit (List (Option (List ℝ))))
    (W : List (List ℝ)) (dw : List (Option (List ℝ)))
    (dalpha : List (Option (List ℝ))) :
    List (List ℝ) × Except Unit (List (List ℝ)) :=
  let r := bgComputeHessian gradA W dw
  (r.1, r.2.bind (bgGradUpdate xi dalpha))

/- Renormalization correction factor of BinaryGateArchitect.step (lines
   198-203 and 210-213): k = sum(exp(p)) / sum(exp(p[s_op])) - 1, where s_op
   indexes the sampled subset. -/
def kFactor (p : List ℝ) (sop : List ℕ) : ℝ :=
  (p.map Real.exp).sum / ((sop.map (fun i => Real.exp (p.getD i 0))).sum) - 1

/- The shift loop of lines 215-216: for i in s_op: p[i] += delta, where
   delta = log(k_after) - log(k_before) is fixed before the loop. -/
def renormShift (p : List ℝ) (sop : List ℕ) (delta : ℝ) : List ℝ :=
  sop.foldl (fun q i => q.set i (q.getD i 0 + delta)) p

/- Helper lemmas about the perturbation primitives. -/

theorem addScaled_addScaled (a b : ℝ) :
    ∀ (p d : List ℝ), addScaled a (addScaled b p d) d = addScaled (a + b) p d
  | p, [] => by simp [addScaled]
  | [], _ :: _ => by simp [addScaled]
  | p :: ps, d :: ds => by
      simp only [addScaled, addScaled_addScaled a b ps ds, List.cons.injEq, and_true]
      ring

theorem addScaled_zero : ∀ (p d : List ℝ), addScaled 0 p d = p
  | p, [] => by simp [addScaled]
  | [], _ :: _ => by simp [addScaled]
  | p :: ps, d :: ds => by simp [addScaled, addScaled_zero ps ds]

theorem perturbD_perturbD (a b : ℝ) :
    ∀ (W dw : List (List ℝ)), perturbD a (perturbD b W dw) dw = perturbD (a + b) W dw
  | W, [] => by simp [perturbD]
  | [], _ :: _ => by simp [perturbD]
  | p :: ps, d :: ds => by
      simp [perturbD, perturbD_perturbD a b ps ds, addScaled_addScaled]

theorem perturbD_zero : ∀ (W dw : List (List ℝ)), perturbD 0 W dw = W
  | W, [] => by simp [perturbD]
  | [], _ :: _ => by simp [perturbD]
  | p :: ps, d :: ds => by simp [perturbD, perturbD_zero ps ds, addScaled_zero]

theorem perturbBG_perturbBG (a b : ℝ) :
    ∀ (W : List (List ℝ)) (dw : List (Option (List ℝ))),
      perturbBG a (perturbBG b W dw) dw = perturbBG (a + b) W dw
  | W, [] => by simp [perturbBG]
  | [], _ :: _ => by simp [perturbBG]
  | p :: ps, some d :: ds => by
      simp [perturbBG, perturbBG_perturbBG a b ps ds, addScaled_addScaled]
  | p :: ps, none :: ds => by
      simp [perturbBG, perturbBG_perturbBG a b ps ds]

theorem perturbBG_zero :
    ∀ (W : List (List ℝ)) (dw : List (Option (List ℝ))), perturbBG 0 W dw = W
  | W, [] => by simp [perturbBG]
  | [], _ :: _ => by simp [perturbBG]
  | p :: ps, some d :: ds => by simp [perturbBG, perturbBG_zero ps ds, addScaled_zero]
  | p :: ps, none :: ds => by simp [perturbBG, perturbBG_zero ps ds]

theorem copySync_eq_left :
    ∀ (a v : List (List ℝ)), a.length = v.length → copySync a v = a
  | [], [], _ => by simp [copySync]
  | [], _ :: _, h => by simp at h
  | _ :: _, [], h => by simp at h
  | a :: as, v :: vs, h => by
      simp only [List.length_cons, Nat.succ.injEq] at h
      simp [copySync, copySync_eq_left as vs h]

theorem set_getD_self : ∀ (p : List ℝ) (i : ℕ), p.set i (p.getD i 0) = p
  | [], _ => by simp
  | a :: t, 0 => by simp [List.getD]
  | a :: t, i + 1 => by
      simp only [List.getD_cons_succ, List.set_cons_succ, List.cons.injEq, true_and]
      exact set_getD_self t i

theorem renormShift_zero : ∀ (sop : List ℕ) (p : List ℝ), renormShift p sop 0 = p
  | [], p => rfl
  | i :: rest, p => by
      have h : p.set i (p.getD i 0 + 0) = p := by rw [add_zero]; exact set_getD_self p i
      simp only [renormShift, List.foldl_cons, h]
      exact renormShift_zero rest p

theorem getD_replicate_zero : ∀ (n i : ℕ), (List.replicate n (0 : ℝ)).getD i 0 = 0
  | 0, _ => by simp
  | n + 1, 0 => by simp [List.replicate]
  | n + 1, i + 1 => by
      simp only [List.replicate, List.getD_cons_succ]
      exact getD_replicate_zero n i

theorem getD_map_mul (c : ℝ) :
    ∀ (l : List ℝ) (i : ℕ), i < l.length →
      (l.map (fun x => x * c)).getD i 0 = l.getD i 0 * c
  | [], i, h => by simp at h
  | a :: t, 0, _ => by simp [List.getD]
  | a :: t, i + 1, h => by
      simp only [List.map_cons, List.getD_cons_succ]
      exact getD_map_mul c t i (by simpa using h)

theorem sgdVirtual_getD (xi wd : ℝ) :
    ∀ (w g m : List ℝ) (i : ℕ), i < w.length → i < g.length → i < m.length →
      (sgdVirtual xi wd w g m).getD i 0 =
        w.getD i 0 - xi * (m.getD i 0 + g.getD i 0 + wd * w.getD i 0)
  | [], _, _, i, hw, _, _ => by simp at hw
  | _ :: _, [], _, i, _, hg, _ => by simp at hg
  | _ :: _, _ :: _, [], i, _, _, hm => by simp at hm
  | w0 :: ws, g0 :: gs, m0 :: ms, 0, _, _, _ => by simp [sgdVirtual, List.getD]
  | w0 :: ws, g0 :: gs, m0 :: ms, i + 1, hw, hg, hm => by
      simp only [sgdVirtual, List.getD_cons_succ]
      exact sgdVirtual_getD xi wd ws gs ms i (by simpa using hw) (by simpa using hg)
        (by simpa using hm)

theorem perturbD_restore (e : ℝ) (W dw : List (List ℝ)) :
    perturbD e (perturbD (-(2 * e)) (perturbD e W dw) dw) dw = W := by
  rw [perturbD_perturbD, perturbD_perturbD, show e + -(2 * e) + e = 0 by ring]
  exact perturbD_zero W dw

theorem perturbBG_restore (e : ℝ) (W : List (List ℝ)) (dw : List (Option (List ℝ))) :
    perturbBG e (perturbBG (-(2 * e)) (perturbBG e W dw) dw) dw = W := by
  rw [perturbBG_perturbBG, perturbBG_perturbBG, show e + -(2 * e) + e = 0 by ring]
  exact perturbBG_zero W dw

theorem dartsHessianCore_ok_fst
    (g : List (List ℝ) → Except Unit (List (List ℝ))) (e : ℝ)
    (W dw : List (List ℝ)) (h : exceptOk (dartsHessianCore g e W dw).2 = true) :
    (dartsHessianCore g e W dw).1 = W := by
  rw [dartsHessianCore] at h ⊢
  cases h1 : g (perturbD e W dw) with
  | error err => rw [h1] at h; simp [exceptOk] at h
  | ok dpos =>
    simp only [h1] at h ⊢
    cases h2 : g (perturbD (-(2 * e)) (perturbD e W dw) dw) with
    | error err => simp only [h2, exceptOk] at h; exact absurd h Bool.false_ne_true
    | ok dneg =>
      simp only [h2]
      exact perturbD_restore e W dw

theorem bgHessianCore_ok_fst
    (g : List (List ℝ) → Except Unit (List (Option (List ℝ)))) (e : ℝ)
    (W : List (List ℝ)) (dw : List (Option (List ℝ)))
    (h : exceptOk (bgHessianCore g e W dw).2 = true) :
    (bgHessianCore g e W dw).1 = W := by
  rw [bgHessianCore] at h ⊢
  cases h1 : g (perturbBG e W dw) with
  | error err => rw [h1] at h; simp [exceptOk] at h
  | ok dpos =>
    simp only [h1] at h ⊢
    cases h2 : g (perturbBG (-(2 * e)) (perturbBG e W dw) dw) with
    | error err => simp only [h2, exceptOk] at h; exact absurd h Bool.false_ne_true
    | ok dneg =>
      simp only [h2]
      exact perturbBG_restore e W dw

theorem dartsComputeHessian_ok_fst
    (g : List (List ℝ) → Except Unit (List (List ℝ)))
    (W dw : List (List ℝ)) (h : exceptOk (dartsComputeHessian g W dw).2 = true) :
    (dartsComputeHessian g W dw).1 = W := by
  by_cases hdw : dw.isEmpty = true
  · rw [dartsComputeHessian, if_pos hdw] at h
    simp [exceptOk] at h
  · rw [dartsComputeHessian, if_neg hdw] at h ⊢
    exact dartsHessianCore_ok_fst g _ W dw h

theorem bgComputeHessian_ok_fst
    (g : List (List ℝ) → Except Unit (List (Option (List ℝ))))
    (W : List (List ℝ)) (dw : List (Option (List ℝ)))
    (h : exceptOk (bgComputeHessian g W dw).2 = true) :
    (bgComputeHessian g W dw).1 = W := by
  by_cases hdw : (dw.filterMap id).isEmpty = true
  · rw [bgComputeHessian, if_pos hdw] at h
    simp [exceptOk] at h
  · rw [bgComputeHessian, if_neg hdw] at h ⊢
    exact bgHessianCore_ok_fst g _ W dw h

/- Claim theorems. -/

/-- C6: each virtual weight is set to vw = w - xi * (m + g + wd * w), with m
the momentum buffer scaled by mu (zero when no buffer exists); and for
weights [1.0, 2.0], zero momentum, zero weight decay, gradients [0.5, 0.5]
and xi = 0.1 the virtual weights become [0.95, 1.95]. -/
theorem c6_virtual_step_formula (xi mu wd : ℝ) (mom w g : List ℝ) (i : ℕ)
    (hw : i < w.length) (hg : i < g.length) (hm : i < mom.length) :
    (vwTensor xi mu wd none w g).getD i 0 =
      w.getD i 0 - xi * (0 + g.getD i 0 + wd * w.getD i 0)
    ∧ (vwTensor xi mu wd (some mom) w g).getD i 0 =
      w.getD i 0 - xi * (mom.getD i 0 * mu + g.getD i 0 + wd * w.getD i 0)
    ∧ virtualWeights (1/10) mu 0 [[1], [2]] [[1/2], [1/2]] [none, none] [[0], [0]]
        = [[19/20], [39/20]] := by
  refine ⟨?_, ?_, ?_⟩
  · rw [vwTensor, sgdVirtual_getD xi wd w g (momTerm mu none w) i hw hg
      (by simpa [momTerm] using hw)]
    simp [momTerm, getD_replicate_zero]
  · rw [vwTensor, sgdVirtual_getD xi wd w g (momTerm mu (some mom) w) i hw hg
      (by simpa [momTerm] using hm)]
    rw [show momTerm mu (some mom) w = mom.map (fun x => x * mu) from rfl,
      getD_map_mul mu mom i hm]
  · norm_num [virtualWeights, vwTensor, sgdVirtual, momTerm, List.replicate]

/-- C6 witness: the formulas of c6_virtual_step_formula evaluated at the
concrete input w = [3], g = [5], mom = [7], xi = mu = wd = 1, i = 0. -/
theorem c6_virtual_step_formula_witness :
    (vwTensor 1 1 1 none [3] [5]).getD 0 0 =
      (List.getD [3] 0 0 : ℝ) - 1 * (0 + List.getD [5] 0 0 + 1 * List.getD [3] 0 0)
    ∧ (vwTensor 1 1 1 (some [7]) [3] [5]).getD 0 0 =
      (List.getD [3] 0 0 : ℝ) -
        1 * (List.getD [7] 0 0 * 1 + List.getD [5] 0 0 + 1 * List.getD [3] 0 0)
    ∧ virtualWeights (1/10) 1 0 [[1], [2]] [[1/2], [1/2]] [none, none] [[0], [0]]
        = [[19/20], [39/20]] :=
  c6_virtual_step_formula 1 1 1 [7] [3] [5] 0 (by simp) (by simp) (by simp)

/-- C7: the virtual step of either variant changes only the virtual model
fields; the real weights, real alphas and momentum buffers are unchanged, and
the virtual weights receive exactly the virtual SGD values (in the DARTS
variant the virtual alphas are overwritten by copies of the real alphas). -/
theorem c7_virtual_step_frame (xi mu wd : ℝ) (g : List (List ℝ))
    (s : DartsState) (t : BGState) :
    (dartsVirtualStep xi mu wd g s).netW = s.netW
    ∧ (dartsVirtualStep xi mu wd g s).netA = s.netA
    ∧ (dartsVirtualStep xi mu wd g s).moms = s.moms
    ∧ (dartsVirtualStep xi mu wd g s).vW = virtualWeights xi mu wd s.netW g s.moms s.vW
    ∧ (dartsVirtualStep xi mu wd g s).vA = copySync s.netA s.vA
    ∧ (bgVirtualStep xi mu wd g t).netW = t.netW
    ∧ (bgVirtualStep xi mu wd g t).alphas = t.alphas
    ∧ (bgVirtualStep xi mu wd g t).moms = t.moms
    ∧ (bgVirtualStep xi mu wd g t).vW = virtualWeights xi mu wd t.netW g t.moms t.vW :=
  ⟨rfl, rfl, rfl, rfl, rfl, rfl, rfl, rfl, rfl⟩

/-- C3: at the moment the virtual validation loss is evaluated (immediately
after the virtual step) the virtual alphas equal the real alphas: the DARTS
variant synchronises them by copy inside virtual_step, and the gated variant
shares the alpha tensors between the two models. -/
theorem c3_alphas_synced (xi mu wd : ℝ) (g : List (List ℝ))
    (s : DartsState) (t : BGState) (hlen : s.netA.length = s.vA.length) :
    (dartsVirtualStep xi mu wd g s).vA = s.netA
    ∧ (dartsVirtualStep xi mu wd g s).netA = s.netA
    ∧ bgVNetAlphas (bgVirtualStep xi mu wd g t) = bgNetAlphas (bgVirtualStep xi mu wd g t) :=
  ⟨copySync_eq_left s.netA s.vA hlen, rfl, rfl⟩

/-- C3 witness: the synchronisation statement at a concrete state with one
alpha group on each side. -/
theorem c3_alphas_synced_witness :
    (dartsVirtualStep 1 1 1 [[1]] ⟨[[1]], [[2]], [[3]], [[4]], [none]⟩).vA = [[2]]
    ∧ (dartsVirtualStep 1 1 1 [[1]] ⟨[[1]], [[2]], [[3]], [[4]], [none]⟩).netA = [[2]]
    ∧ bgVNetAlphas (bgVirtualStep 1 1 1 [[1]] ⟨[[1]], [[2]], [[3]], [none]⟩)
        = bgNetAlphas (bgVirtualStep 1 1 1 [[1]] ⟨[[1]], [[2]], [[3]], [none]⟩) :=
  c3_alphas_synced 1 1 1 [[1]] ⟨[[1]], [[2]], [[3]], [[4]], [none]⟩
    ⟨[[1]], [[2]], [[3]], [none]⟩ (by simp)

/-- C2 amended: on the success path of compute_hessian (both variants) the
+eps, -2*eps, +eps in-place sequence nets to exactly zero, so the real
weights equal their pre-call values; there is no unwinding on the failure
path (see the counterexample). -/
theorem c2_success_restores_weights
    (gD : List (List ℝ) → Except Unit (List (List ℝ)))
    (gB : List (List ℝ) → Except Unit (List (Option (List ℝ))))
    (W Wb dw : List (List ℝ)) (dwb : List (Option (List ℝ)))
    (hD : exceptOk (dartsComputeHessian gD W dw).2 = true)
    (hB : exceptOk (bgComputeHessian gB Wb dwb).2 = true) :
    (dartsComputeHessian gD W dw).1 = W ∧ (bgComputeHessian gB Wb dwb).1 = Wb :=
  ⟨dartsComputeHessian_ok_fst gD W dw hD, bgComputeHessian_ok_fst gB Wb dwb hB⟩

/-- C2 witness: a concrete successful call of each variant returns the real
weights unchanged. -/
theorem c2_success_restores_weights_witness :
    (dartsComputeHessian (fun _ => .ok [[0]]) [[1]] [[1]]).1 = [[1]]
    ∧ (bgComputeHessian (fun _ => .ok [some [0]]) [[1]] [some [1]]).1 = [[1]] :=
  c2_success_restores_weights (fun _ => .ok [[0]]) (fun _ => .ok [some [0]])
    [[1]] [[1]] [[1]] [some [1]] (by rfl) (by rfl)

/-- C2 counterexample: when the alpha-gradient evaluation raises after the
forward perturbation, compute_hessian propagates the error with the real
weights still perturbed (1.01 instead of 1), so the claimed unwinding on the
failure path does not happen. -/
theorem c2_failure_leaves_weights_perturbed :
    (dartsComputeHessian (fun _ => .error ()) [[1]] [[1]]).2 = .error ()
    ∧ (dartsComputeHessian (fun _ => .error ()) [[1]] [[1]]).1 = [[1 + 1/100]]
    ∧ [[(1 : ℝ) + 1/100]] ≠ [[(1 : ℝ)]] := by
  have hn : dartsNorm [[1]] = 1 := by
    rw [dartsNorm, show (([[1]] : List (List ℝ)).map sumSq).sum = 1 by
      norm_num [sumSq]]
    exact Real.sqrt_one
  have he : (0.01 : ℝ) / dartsNorm [[1]] = 1 / 100 := by rw [hn]; norm_num
  refine ⟨rfl, ?_, ?_⟩
  · rw [dartsComputeHessian, if_neg (by simp), dartsHessianCore]
    simp only [perturbD, addScaled, he]
    norm_num
  · simp only [ne_eq, List.cons.injEq, and_true]
    intro hcon
    norm_num at hcon

theorem addScaled_getD (e : ℝ) :
    ∀ (p d : List ℝ) (i : ℕ), i < p.length → i < d.length →
      (addScaled e p d).getD i 0 = p.getD i 0 + e * d.getD i 0
  | [], _, i, hp, _ => by simp at hp
  | _ :: _, [], i, _, hd => by simp at hd
  | p0 :: ps, d0 :: ds, 0, _, _ => by simp [addScaled, List.getD]
  | p0 :: ps, d0 :: ds, i + 1, hp, hd => by
      simp only [addScaled, List.getD_cons_succ]
      exact addScaled_getD e ps ds i (by simpa using hp) (by simpa using hd)

/-- C8: eps = 0.01 / norm(dw) where the norm is the Euclidean norm of the
concatenation of exactly the defined direction entries (undefined entries
excluded from the norm and skipped in perturbation); dw = [3, 4] gives norm 5
and eps = 0.002, and the three perturbation stages leave the weights at
w + eps*dw, then w - eps*dw, then w, elementwise. -/
theorem c8_eps_and_stages :
    dartsNorm [[3], [4]] = 5
    ∧ (0.01 : ℝ) / dartsNorm [[3], [4]] = 1 / 500
    ∧ bgNorm [some [3], none, some [4]] = 5
    ∧ (∀ (W dw : List (List ℝ)) (e : ℝ),
        perturbD (-(2 * e)) (perturbD e W dw) dw = perturbD (-e) W dw
        ∧ perturbD e (perturbD (-(2 * e)) (perturbD e W dw) dw) dw = W)
    ∧ (∀ (W : List (List ℝ)) (dw : List (Option (List ℝ))) (e : ℝ),
        perturbBG (-(2 * e)) (perturbBG e W dw) dw = perturbBG (-e) W dw
        ∧ perturbBG e (perturbBG (-(2 * e)) (perturbBG e W dw) dw) dw = W)
    ∧ (∀ (p d : List ℝ) (e : ℝ) (i : ℕ), i < p.length → i < d.length →
        (addScaled e p d).getD i 0 = p.getD i 0 + e * d.getD i 0)
    ∧ (∀ (e : ℝ) (p : List ℝ) (ps : List (List ℝ)) (ds : List (Option (List ℝ))),
        perturbBG e (p :: ps) (none :: ds) = p :: perturbBG e ps ds) := by
  have hn : dartsNorm [[3], [4]] = 5 := by
    rw [dartsNorm, show (([[3], [4]] : List (List ℝ)).map sumSq).sum = 25 by
      norm_num [sumSq]]
    rw [show (25 : ℝ) = 5 ^ 2 by norm_num]
    exact Real.sqrt_sq (by norm_num)
  have hb : bgNorm [some [3], none, some [4]] = 5 := by
    rw [bgNorm, show ((([some [3], none, some [4]] :
        List (Option (List ℝ))).filterMap id).map sumSq).sum = 25 by
      norm_num [sumSq, List.filterMap]]
    rw [show (25 : ℝ) = 5 ^ 2 by norm_num]
    exact Real.sqrt_sq (by norm_num)
  refine ⟨hn, by rw [hn]; norm_num, hb, ?_, ?_, fun p d e => addScaled_getD e p d,
    fun _ _ _ _ => rfl⟩
  · intro W dw e
    constructor
    · rw [perturbD_perturbD, show -(2 * e) + e = -e by ring]
    · exact perturbD_restore e W dw
  · intro W dw e
    constructor
    · rw [perturbBG_perturbBG, show -(2 * e) + e = -e by ring]
    · exact perturbBG_restore e W dw

/-- C8 witness: the elementwise perturbation formula of c8_eps_and_stages
instantiated at p = [1], d = [3], e = 2, i = 0. -/
theorem c8_eps_and_stages_witness :
    (addScaled 2 [1] [3]).getD 0 0 = (List.getD [1] 0 0 : ℝ) + 2 * List.getD [3] 0 0 :=
  c8_eps_and_stages.2.2.2.2.2.1 [1] [3] 2 0 (by simp) (by simp)

/-- C1: the source docstring specifies hessian = (dalpha_pos - dalpha_neg) /
(2*eps), but line 110 computes (p - n) / 2.*eps, which Python evaluates as
((p - n) / 2) * eps.  At dw = [[3], [4]] (eps = 1/500) with alpha gradient
equal to the first weight entry, the code returns 3/250000 while the
documented central-difference value is 3. -/
theorem c1_divisor_divergence :
    (dartsComputeHessian (fun w => .ok [[(w.headD []).headD 0]]) [[1], [2]] [[3], [4]]).2
      = .ok [[3 / 250000]]
    ∧ ((503 / 500 - 497 / 500 : ℝ) / (2 * ((0.01 : ℝ) / dartsNorm [[3], [4]]))) = 3
    ∧ ((3 : ℝ) / 250000) ≠ 3 := by
  have hn : dartsNorm [[3], [4]] = 5 := by
    rw [dartsNorm, show (([[3], [4]] : List (List ℝ)).map sumSq).sum = 25 by
      norm_num [sumSq]]
    rw [show (25 : ℝ) = 5 ^ 2 by norm_num]
    exact Real.sqrt_sq (by norm_num)
  have he : (0.01 : ℝ) / dartsNorm [[3], [4]] = 1 / 500 := by rw [hn]; norm_num
  refine ⟨?_, by rw [he]; norm_num, by norm_num⟩
  rw [dartsComputeHessian, if_neg (by simp), he, dartsHessianCore]
  norm_num [perturbD, addScaled, dartsHessCombine]

/-- C4 amended: when the direction has no defined entries both variants raise
before any weight mutation (torch.cat of an empty list), with the real
weights untouched; a zero-norm direction, however, is not guarded (see the
counterexample). -/
theorem c4_empty_direction_raises
    (gD : List (List ℝ) → Except Unit (List (List ℝ)))
    (gB : List (List ℝ) → Except Unit (List (Option (List ℝ))))
    (W Wb : List (List ℝ)) (dw : List (Option (List ℝ)))
    (hnone : dw.filterMap id = []) :
    bgComputeHessian gB W dw = (W, .error ())
    ∧ dartsComputeHessian gD Wb [] = (Wb, .error ()) := by
  constructor
  · rw [bgComputeHessian, hnone]
    simp
  · rw [dartsComputeHessian]
    simp

/-- C4 witness: the explicit error on an all-undefined direction, weights
untouched, for both variants. -/
theorem c4_empty_direction_raises_witness :
    bgComputeHessian (fun _ => .ok []) [[1]] [none] = ([[1]], .error ())
    ∧ dartsComputeHessian (fun _ => .ok []) [[2]] [] = ([[2]], .error ()) :=
  c4_empty_direction_raises (fun _ => .ok []) (fun _ => .ok []) [[1]] [[2]] [none] rfl

/-- C4 counterexample: a direction with a defined entry of zero norm does not
raise: compute_hessian completes normally, contradicting the claim that a
zero-norm direction produces an explicit error. -/
theorem c4_zero_norm_not_raised :
    bgNorm [some [0]] = 0
    ∧ exceptOk (bgComputeHessian (fun _ => .ok [some [1]]) [[1]] [some [0]]).2 = true := by
  constructor
  · rw [bgNorm, show ((([some [0]] : List (Option (List ℝ))).filterMap id).map
        sumSq).sum = 0 by norm_num [sumSq, List.filterMap]]
    exact Real.sqrt_zero
  · rfl

theorem bgGradUpdate_ok (xi : ℝ) :
    ∀ (dalpha : List (Option (List ℝ))) (hess : List HessT),
      (∀ a ∈ dalpha, a ≠ none) → ∃ l, bgGradUpdate xi dalpha hess = .ok l
  | [], hess, _ => ⟨[], by cases hess <;> rfl⟩
  | _ :: _, [], _ => ⟨[], rfl⟩
  | none :: das, h :: hs, hdef => absurd rfl (hdef none (List.mem_cons_self _ _))
  | some d :: das, h :: hs, hdef => by
      obtain ⟨l, hl⟩ :=
        bgGradUpdate_ok xi das hs (fun a ha => hdef a (List.mem_cons_of_mem _ ha))
      cases h with
      | zero => exact ⟨d :: l, by simp [bgGradUpdate, combineEntryBG, hl]⟩
      | tens t =>
          exact ⟨d.zipWith (fun x hh => x - xi * hh) t :: l,
            by simp [bgGradUpdate, combineEntryBG, hl]⟩

/-- C5 amended: in the unrolled gated step, undefined weight-direction pairs
are skipped in the perturbation arithmetic and an alpha group whose positive
gradient is undefined gets the integer hessian entry 0, in which case the
written gradient is the raw validation gradient da; the gradient-combine
completes without raising provided every alpha gradient da is defined (an
undefined da raises, see the counterexample). -/
theorem c5_defined_alpha_grads_complete (xi : ℝ) (dalpha : List (Option (List ℝ)))
    (hess : List HessT) (da : List ℝ)
    (hdef : ∀ a ∈ dalpha, a ≠ none) :
    (∃ l, bgGradUpdate xi dalpha hess = .ok l)
    ∧ combineEntryBG xi (some da) HessT.zero = .ok da
    ∧ (∀ (e : ℝ) (p : List ℝ) (ps : List (List ℝ)) (ds : List (Option (List ℝ))),
        perturbBG e (p :: ps) (none :: ds) = p :: perturbBG e ps ds) :=
  ⟨bgGradUpdate_ok xi dalpha hess hdef, rfl, fun _ _ _ _ => rfl⟩

/-- C5 witness: the gradient combine at a concrete defined alpha gradient. -/
theorem c5_defined_alpha_grads_complete_witness :
    (∃ l, bgGradUpdate 1 [some [2]] [HessT.zero] = .ok l)
    ∧ combineEntryBG 1 (some [3]) HessT.zero = .ok [3]
    ∧ (∀ (e : ℝ) (p : List ℝ) (ps : List (List ℝ)) (ds : List (Option (List ℝ))),
        perturbBG e (p :: ps) (none :: ds) = p :: perturbBG e ps ds) :=
  c5_defined_alpha_grads_complete 1 [some [2]] [HessT.zero] [3] (by simp)

/-- C5 counterexample: a step in which one alpha gradient is undefined for
the sampled subset raises at the gradient combine (None - xi*h in Python),
so step does not complete without raising. -/
theorem c5_undefined_alpha_grad_raises :
    (bgStepUnrolledGrads 1 (fun _ => .ok [none]) [[1]] [some [1]] [none]).2
      = .error () := rfl

/-- C9: the correction factor k is a deterministic function of the logits and
the sampled subset; with no optimizer update between the two computations the
post-step factor equals the pre-step factor, the applied shift
log(k_after) - log(k_before) is zero, and every sampled logit is unchanged. -/
theorem c9_renorm_roundtrip (p : List ℝ) (sop : List ℕ) :
    kFactor p sop = kFactor p sop
    ∧ Real.log (kFactor p sop) - Real.log (kFactor p sop) = 0
    ∧ renormShift p sop (Real.log (kFactor p sop) - Real.log (kFactor p sop)) = p :=
  ⟨rfl, sub_self _, by rw [sub_self]; exact renormShift_zero sop p⟩

theorem sum_map_getD_range (f : ℝ → ℝ) :
    ∀ (p : List ℝ), (p.map f).sum = ∑ i in Finset.range p.length, f (p.getD i 0)
  | [] => by simp
  | a :: t => by
      rw [List.map_cons, List.sum_cons, sum_map_getD_range f t, List.length_cons,
        Finset.sum_range_succ']
      simp only [List.getD_cons_succ, List.getD_cons_zero]
      ring

/-- C10: the renormalization factor k is strictly positive exactly under the
strict-subset precondition: when the sampled subset selects every logit, k is
zero (and the unguarded shift takes log of 0); when the subset is a strict,
duplicate-free subset of the index range, k is strictly positive so its
logarithm is well defined. -/
theorem c10_renorm_subset_precondition (p : List ℝ) (sop : List ℕ) :
    (sop.map (fun i => p.getD i 0) = p → p ≠ [] → kFactor p sop = 0)
    ∧ (sop ≠ [] → sop.Nodup → (∀ i ∈ sop, i < p.length) →
        (∃ j, j < p.length ∧ j ∉ sop) → 0 < kFactor p sop) := by
  constructor
  · intro hcover hne
    have hsel : (sop.map (fun i => Real.exp (p.getD i 0))).sum
        = (p.map Real.exp).sum := by
      rw [show (sop.map (fun i => Real.exp (p.getD i 0)))
          = (sop.map (fun i => p.getD i 0)).map Real.exp by
        rw [List.map_map]; rfl, hcover]
    have hpos : 0 < (p.map Real.exp).sum :=
      List.sum_pos _
        (by intro x hx; obtain ⟨y, _, rfl⟩ := List.mem_map.mp hx; exact Real.exp_pos y)
        (by simpa using hne)
    rw [kFactor, hsel, div_self (ne_of_gt hpos), sub_self]
  · rintro hne hnodup hrange ⟨j, hj, hjn⟩
    have hselpos : 0 < (sop.map (fun i => Real.exp (p.getD i 0))).sum :=
      List.sum_pos _
        (by intro x hx; obtain ⟨y, _, rfl⟩ := List.mem_map.mp hx; exact Real.exp_pos _)
        (by simpa using hne)
    have hfin : (sop.map (fun i => Real.exp (p.getD i 0))).sum
        = ∑ i in sop.toFinset, Real.exp (p.getD i 0) :=
      (List.sum_toFinset _ hnodup).symm
    have hall : (p.map Real.exp).sum
        = ∑ i in Finset.range p.length, Real.exp (p.getD i 0) :=
      sum_map_getD_range Real.exp p
    have hsub : sop.toFinset ⊆ Finset.range p.length := by
      intro i hi
      rw [Finset.mem_range]
      exact hrange i (List.mem_toFinset.mp hi)
    have hlt : ∑ i in sop.toFinset, Real.exp (p.getD i 0)
        < ∑ i in Finset.range p.length, Real.exp (p.getD i 0) :=
      Finset.sum_lt_sum_of_subset hsub (Finset.mem_range.mpr hj)
        (by simpa using hjn) (Real.exp_pos _) (fun k _ _ => le_of_lt (Real.exp_pos _))
    rw [kFactor, sub_pos, one_lt_div hselpos, hfin, hall]
    exact hlt

/-- C10 witness: with logits [0, 0], the full subset [0, 1] gives k = 0 and
the strict subset [0] gives k strictly positive. -/
theorem c10_renorm_subset_precondition_witness :
    kFactor [0, 0] [0, 1] = 0 ∧ 0 < kFactor [0, 0] [0] :=
  ⟨(c10_renorm_subset_precondition [0, 0] [0, 1]).1 (by norm_num [List.getD]) (by simp),
   (c10_renorm_subset_precondition [0, 0] [0]).2 (by simp) (by simp)
     (by simp) ⟨1, by simp, by simp⟩⟩

end

end Architect
